import Mathlib

/-!
# Discrete operators and driver of the row-partitioned Poisson solver

Shallow embedding of `src_parallel/ApproximateOperations.h` (the negated
five-point Laplacian `CalculateLaplass`, the weighted inner product
`ScalarProduct`, the norm `NormValue`) and of `src_parallel/main.cpp`
(`writeValues` and the argument / process-count checks of `main`).

Conventions of the embedding.

* `double` is an arbitrary field `α` (exact arithmetic); the executable
  instances used for evaluation take `α := ℚ`.
* The loop counters are C++ `int`s that start at `1` (or `0`) and only
  grow, so they are modelled by `Nat`.  A bound `n - 1` is the truncated
  natural subtraction: for `n = 0` the C++ bound is `-1` and the `Nat`
  bound is `0`, and in both cases a loop that starts at `0` or `1` does not
  run.
* `Interface.h` (the types `DoubleMatrix` and `NetModel`) is not part of the
  sources at hand; what the operators use of it is modelled below.
-/

namespace ParallelOdu

/-! ## Data model -/

/-- Modelled from the spec: `DoubleMatrix` is declared in `Interface.h`, which
is missing.  It is the dense 2-D array of the spec, indexed by (row, column).
`NormValue` walks the cells as one contiguous block that starts at
`&matrix[0][0]` and holds `rowsCount() * colsCount()` values, so the storage
is a single row-major block. -/
structure DoubleMatrix (α : Type) where
  /-- Number of rows, the value of `rowsCount()`. -/
  rowsCount : Nat
  /-- Number of columns, the value of `colsCount()`. -/
  colsCount : Nat
  /-- The row-major block of cells that starts at `&matrix[0][0]`. -/
  matrix : List α

namespace DoubleMatrix

variable {α : Type}

/-- Modelled from the spec: the constructor `DoubleMatrix(rows, cols)` of the
missing `Interface.h`; the spec says that cells which are never written hold
"their default (zero) value". -/
def create [Zero α] (rows cols : Nat) : DoubleMatrix α :=
  ⟨rows, cols, List.replicate (rows * cols) 0⟩

/-- Modelled from the spec: the read access `values(i, j)`, cell `j` of row `i`
of the row-major block.  A read outside the block (undefined in C++) yields
`0`. -/
def get [Zero α] (m : DoubleMatrix α) (i j : Nat) : α :=
  (m.matrix[i * m.colsCount + j]?).getD 0

/-- Modelled from the spec: the write access `values(i, j) = v`. -/
def set (m : DoubleMatrix α) (i j : Nat) (v : α) : DoubleMatrix α :=
  { m with matrix := m.matrix.set (i * m.colsCount + j) v }

/-- The matrix has `R` rows, `C` columns and a block of `R * C` cells. -/
def HasShape (m : DoubleMatrix α) (R C : Nat) : Prop :=
  m.rowsCount = R ∧ m.colsCount = C ∧ m.matrix.length = R * C

instance (m : DoubleMatrix α) (R C : Nat) : Decidable (m.HasShape R C) := by
  unfold HasShape; infer_instance

end DoubleMatrix

/-- Modelled from the spec: `NetModel` is declared in the missing
`Interface.h`.  The operators use the two point counts and four lookups (step
to the next point and average step, along each axis); the lookups are taken
as parameters. -/
structure NetModel (α : Type) where
  /-- Number of grid points along x (rows of a field). -/
  xPointsCount : Nat
  /-- Number of grid points along y (columns of a field). -/
  yPointsCount : Nat
  /-- Lookup `xStep(i)`. -/
  xStep : Nat → α
  /-- Lookup `yStep(i)`. -/
  yStep : Nat → α
  /-- Lookup `xAverageStep(i)`. -/
  xAverageStep : Nat → α
  /-- Lookup `yAverageStep(i)`. -/
  yAverageStep : Nat → α

/-- The loop `for (auto i = lo; i < hi; ++i) state = body(i, state)`. -/
def forRange {σ : Type} (lo hi : Nat) (body : Nat → σ → σ) (init : σ) : σ :=
  (List.range' lo (hi - lo)).foldl (fun s i => body i s) init

/-! ## `ApproximateOperations` -/

section Operators

variable {α : Type}

/-- `ApproximateOperations::CalculateLaplass`: the negated discrete Laplacian
of `currentValues` (lines 18-33). -/
def CalculateLaplass [Field α] (netModel : NetModel α) (currentValues : DoubleMatrix α) :
    DoubleMatrix α :=
  let laplassValues : DoubleMatrix α :=
    DoubleMatrix.create netModel.xPointsCount netModel.yPointsCount
  forRange 1 (laplassValues.rowsCount - 1) (fun i laplassValues =>
    forRange 1 (laplassValues.colsCount - 1) (fun j laplassValues =>
      let xPart :=
        (currentValues.get i j - currentValues.get (i - 1) j) / netModel.xStep (i - 1) -
        (currentValues.get (i + 1) j - currentValues.get i j) / netModel.xStep i
      let yPart :=
        (currentValues.get i j - currentValues.get i (j - 1)) / netModel.yStep (i - 1) -
        (currentValues.get i (j + 1) - currentValues.get i j) / netModel.yStep i
      laplassValues.set i j
        (xPart / netModel.xAverageStep i + yPart / netModel.yAverageStep j))
      laplassValues)
    laplassValues

/-- `ApproximateOperations::ScalarProduct` (lines 35-47). -/
def ScalarProduct [Field α] (netModel : NetModel α)
    (currentValues otherValues : DoubleMatrix α) : α :=
  let prodValue : α := 0
  forRange 1 (currentValues.rowsCount - 1) (fun i prodValue =>
    forRange 1 (currentValues.colsCount - 1) (fun j prodValue =>
      prodValue + netModel.xAverageStep i * netModel.yAverageStep j *
                  currentValues.get i j * otherValues.get i j)
      prodValue)
    prodValue

/-- `std::max_element` on a range: the first largest element, found by keeping
`largest` and replacing it whenever `*largest < *first`; `none` on an empty
range (where C++ returns the end iterator). -/
def max_element [LinearOrder α] : List α → Option α
  | [] => none
  | x :: xs => some (xs.foldl (fun largest y => if largest < y then y else largest) x)

/-- `ApproximateOperations::NormValue` (lines 55-59): `fabs` of the element
`std::max_element` finds among the `rowsCount() * colsCount()` cells of the
block; `none` where the range is empty and the C++ dereference is undefined. -/
def NormValue [LinearOrderedField α] (currentValues : DoubleMatrix α) : Option α :=
  (max_element (currentValues.matrix.take
    (currentValues.rowsCount * currentValues.colsCount))).map (fun v => |v|)

/-- The max-norm in the words of the spec, `max |a(i,j)|` over every cell of the
full local extent: the largest absolute value among the
`rowsCount * colsCount` cells, `none` for a matrix without cells. -/
def maxNorm [LinearOrderedField α] (a : DoubleMatrix α) : Option α :=
  max_element ((a.matrix.take (a.rowsCount * a.colsCount)).map (fun v => |v|))

/-- One lookup into the grid model. -/
inductive Lookup where
  /-- The call `netModel->xStep(i)`. -/
  | xStep (i : Nat)
  /-- The call `netModel->yStep(i)`. -/
  | yStep (i : Nat)
  /-- The call `netModel->xAverageStep(i)`. -/
  | xAverageStep (i : Nat)
  /-- The call `netModel->yAverageStep(i)`. -/
  | yAverageStep (i : Nat)
  deriving DecidableEq, Repr

/-- The grid-model lookups `CalculateLaplass` performs on a grid of
`xPointsCount` by `yPointsCount` points: the loops of lines 21-31, each pass
logging the six calls of lines 25-29 with their arguments. -/
def CalculateLaplassLookups (xPointsCount yPointsCount : Nat) : List Lookup :=
  forRange 1 (xPointsCount - 1) (fun i log =>
    forRange 1 (yPointsCount - 1) (fun j log =>
      log ++ [Lookup.xStep (i - 1), Lookup.xStep i,
              Lookup.yStep (i - 1), Lookup.yStep i,
              Lookup.xAverageStep i, Lookup.yAverageStep j])
      log)
    []

/-- The grid-model lookups `ScalarProduct` performs on fields of `rowsCount`
by `colsCount` cells: the loops of lines 38-45, each pass logging the two
calls of line 42. -/
def ScalarProductLookups (rowsCount colsCount : Nat) : List Lookup :=
  forRange 1 (rowsCount - 1) (fun i log =>
    forRange 1 (colsCount - 1) (fun j log =>
      log ++ [Lookup.xAverageStep i, Lookup.yAverageStep j])
      log)
    []

/-- The lookup is made at an interior index of the axis it reads: an index `k`
with `1 <= k <= count - 2`, where `count` is `R` for the x-axis and `C` for the
y-axis. -/
def Lookup.Interior (R C : Nat) : Lookup → Prop
  | Lookup.xStep k => 1 ≤ k ∧ k ≤ R - 2
  | Lookup.yStep k => 1 ≤ k ∧ k ≤ C - 2
  | Lookup.xAverageStep k => 1 ≤ k ∧ k ≤ R - 2
  | Lookup.yAverageStep k => 1 ≤ k ∧ k ≤ C - 2

instance (R C : Nat) (l : Lookup) : Decidable (l.Interior R C) := by
  cases l <;> unfold Lookup.Interior <;> infer_instance

/-- Two grid models answer the lookup alike. -/
def NetModel.AgreesAt (n1 n2 : NetModel α) : Lookup → Prop
  | Lookup.xStep k => n1.xStep k = n2.xStep k
  | Lookup.yStep k => n1.yStep k = n2.yStep k
  | Lookup.xAverageStep k => n1.xAverageStep k = n2.xAverageStep k
  | Lookup.yAverageStep k => n1.yAverageStep k = n2.yAverageStep k

end Operators

/-! ## `main.cpp` -/

section Driver

variable {α : Type}

/-- `writeValues` (main.cpp, lines 19-46).  `isOpen` is the answer of
`outputFile.is_open()` and `format v` the text `outputFile << v` appends for a
`double`.  The result is the text written to the file, or, when the file
could not be opened, the text sent to `std::cerr` with the status passed to
`exit`. -/
def writeValues [Zero α] (filename : String) (isOpen : Bool) (format : α → String)
    (values : DoubleMatrix α) : Except (String × Int) String :=
  if !isOpen then
    Except.error ("Incorrect output file " ++ filename, 1)
  else
    Except.ok (forRange 0 values.rowsCount (fun i outputFile =>
      let outputFile := forRange 0 values.colsCount (fun j outputFile =>
        let outputFile := outputFile ++ format (values.get i j)
        if j ≠ values.colsCount - 1 then outputFile ++ ", " else outputFile)
        outputFile
      if i ≠ values.rowsCount - 1 then outputFile ++ "\n" else outputFile)
      "")

/-- What `main` does that can be observed from outside, in program order. -/
inductive Event where
  /-- Text written to `std::cerr`. -/
  | stderr (text : String)
  /-- Text written to `std::cout`. -/
  | stdout (text : String)
  /-- The call `exit(status)`, which ends the process. -/
  | exit (status : Int)
  /-- Control reaches the end of `main`: the process ends with `status`. -/
  | returned (status : Int)
  /-- The call `MPI_Init`, the process bootstrap. -/
  | MPI_Init
  /-- The call `MPI_Comm_rank`. -/
  | MPI_Comm_rank
  /-- The call `MPI_Comm_size`. -/
  | MPI_Comm_size
  /-- The construction `new NetModel(..., xPointsCount, yPointsCount)` of the
  grid model. -/
  | NetModel (xPointsCount yPointsCount : Int)
  /-- A step of the partition, solver, gather or output stage. -/
  | stage (name : String)
  deriving DecidableEq, Repr

/-- The inputs of one run of `main`. -/
structure Invocation where
  /-- The argument count `argc` (program name included). -/
  argc : Int
  /-- The rank `MPI_Comm_rank` stores. -/
  rank : Int
  /-- The process count `MPI_Comm_size` stores. -/
  processorsCount : Int
  /-- The value of `std::stoi(argv[3])`, `none` when it throws. -/
  pointsCount : Option Int
  /-- The text `e.what()` of the exception `std::stoi` throws. -/
  what : String
  /-- The events of lines 87-162 (partition, solver, gather, output,
  `MPI_Finalize`), whose code is in files that are missing. -/
  rest : List Event

/-- `main` (main.cpp, lines 48-168) as the sequence of its events. -/
def main (inv : Invocation) : List Event :=
  if inv.argc < 4 then
    [Event.stderr "Not enough input arguments\n", Event.exit 1]
  else
    [Event.MPI_Init, Event.MPI_Comm_rank, Event.MPI_Comm_size] ++
    match inv.pointsCount with
    | none =>
      [Event.stdout (toString inv.rank ++ " : " ++ inv.what ++ "\n"), Event.returned 0]
    | some pointsCount =>
      if inv.processorsCount ≤ 0 then
        [Event.stderr "Incorrect number of processors\n", Event.exit 1]
      else
        [Event.stdout ("rank = " ++ toString inv.rank ++ "\n"),
         Event.NetModel pointsCount pointsCount] ++ inv.rest

end Driver

/-! ## Concrete grids and fields used for evaluation -/

section Instances

/-- A non-uniform grid of `R` by `C` points: the x-steps are `1, 2, 3, ...`, every
y-step is `2`, the average step is half the sum of the two adjacent steps. -/
def steppedNet (R C : Nat) : NetModel ℚ where
  xPointsCount := R
  yPointsCount := C
  xStep := fun k => (k : ℚ) + 1
  yStep := fun _ => 2
  xAverageStep := fun k => ((((k - 1 : Nat) : ℚ) + 1) + ((k : ℚ) + 1)) / 2
  yAverageStep := fun _ => (2 + 2) / 2

/-- A 3 by 3 field. -/
def field3 : DoubleMatrix ℚ := ⟨3, 3, [1, 2, 3, 4, 6, 8, 7, 8, 10]⟩

/-- A 3 by 3 field with a negative entry of largest absolute value. -/
def fieldNeg : DoubleMatrix ℚ := ⟨3, 3, [1, 2, 3, 0, -5, 1, 2, 1, 0]⟩

end Instances

/-! ## Loops and matrix accesses -/

section Loops

variable {σ : Type}

theorem forRange_of_le (lo hi : Nat) (body : Nat → σ → σ) (init : σ) (h : hi ≤ lo) :
    forRange lo hi body init = init := by
  simp [forRange, Nat.sub_eq_zero_of_le h]

theorem forRange_succ (lo hi : Nat) (body : Nat → σ → σ) (init : σ) (h : lo ≤ hi) :
    forRange lo (hi + 1) body init = body hi (forRange lo hi body init) := by
  unfold forRange
  have e : hi + 1 - lo = (hi - lo) + 1 := by omega
  have e2 : lo + (hi - lo) = hi := by omega
  rw [e, List.range'_concat, List.foldl_append]
  simp [e2]

/-- Loop invariants: what holds before the first pass and is kept by every
pass holds when the loop ends. -/
theorem forRange_invariant (P : Nat → σ → Prop) (lo hi : Nat) (body : Nat → σ → σ)
    (init : σ) (hle : lo ≤ hi) (h0 : P lo init)
    (hstep : ∀ i s, lo ≤ i → i < hi → P i s → P (i + 1) (body i s)) :
    P hi (forRange lo hi body init) := by
  induction hi with
  | zero =>
    have : lo = 0 := by omega
    subst this
    simpa [forRange] using h0
  | succ n ih =>
    rcases Nat.lt_or_ge lo (n + 1) with hlt | hge
    · have hle2 : lo ≤ n := by omega
      rw [forRange_succ lo n body init hle2]
      exact hstep n _ hle2 (Nat.lt_succ_self n)
        (ih hle2 (fun i s h1 h2 hp => hstep i s h1 (by omega) hp))
    · have : lo = n + 1 := by omega
      subst this
      rw [forRange_of_le _ _ _ _ (le_refl _)]
      exact h0

end Loops

namespace DoubleMatrix

variable {α : Type}

theorem create_hasShape [Zero α] (R C : Nat) : (create R C : DoubleMatrix α).HasShape R C := by
  simp [create, HasShape]

theorem get_create [Zero α] (R C i j : Nat) : (create R C : DoubleMatrix α).get i j = 0 := by
  simp only [get, create, List.getElem?_replicate]
  split <;> rfl

theorem set_hasShape (m : DoubleMatrix α) (R C i j : Nat) (v : α) (h : m.HasShape R C) :
    (m.set i j v).HasShape R C := by
  obtain ⟨h1, h2, h3⟩ := h
  exact ⟨h1, h2, by simp [set, h3]⟩

theorem flat_index_inj {C i j i2 j2 : Nat} (hj : j < C) (hj2 : j2 < C) :
    i * C + j = i2 * C + j2 ↔ i = i2 ∧ j = j2 := by
  constructor
  · intro h
    have hC : 0 < C := by omega
    have e1 : (i * C + j) / C = i := by
      rw [Nat.add_comm, Nat.mul_comm, Nat.add_mul_div_left _ _ hC, Nat.div_eq_of_lt hj,
        Nat.zero_add]
    have e2 : (i2 * C + j2) / C = i2 := by
      rw [Nat.add_comm, Nat.mul_comm, Nat.add_mul_div_left _ _ hC, Nat.div_eq_of_lt hj2,
        Nat.zero_add]
    have hi : i = i2 := by rw [← e1, ← e2, h]
    subst hi
    exact ⟨rfl, by omega⟩
  · rintro ⟨rfl, rfl⟩
    rfl

theorem flat_index_lt {R C i j : Nat} (hi : i < R) (hj : j < C) : i * C + j < R * C := by
  have h1 : (i + 1) * C ≤ R * C := Nat.mul_le_mul_right C hi
  have h2 : (i + 1) * C = i * C + C := Nat.succ_mul i C
  omega

/-- Reading a cell after a write inside the block: the written cell holds the
new value, every other cell of the row range is unchanged. -/
theorem get_set [Zero α] (m : DoubleMatrix α) (R C i j i2 j2 : Nat) (v : α)
    (h : m.HasShape R C) (hi : i < R) (hj : j < C) (hj2 : j2 < C) :
    (m.set i j v).get i2 j2 = if i2 = i ∧ j2 = j then v else m.get i2 j2 := by
  obtain ⟨h1, h2, h3⟩ := h
  simp only [get, set, List.getElem?_set, h2]
  by_cases hc : i * C + j = i2 * C + j2
  · have hc2 := (flat_index_inj hj hj2).1 hc
    have hlt : i * C + j < m.matrix.length := by
      rw [h3]; exact flat_index_lt hi hj
    rw [if_pos hc, if_pos hlt, if_pos ⟨hc2.1.symm, hc2.2.symm⟩]
    rfl
  · have hne : ¬ (i2 = i ∧ j2 = j) := by
      rintro ⟨rfl, rfl⟩
      exact hc rfl
    rw [if_neg hc, if_neg hne]

/-- The inner loop of a row-by-row fill: row `i` receives `val j` in its
interior columns, nothing else changes. -/
theorem fillRow_spec [Zero α] (R C i : Nat) (val : Nat → α) (m0 : DoubleMatrix α)
    (h0 : m0.HasShape R C) (hi : i < R) :
    (forRange 1 (C - 1) (fun j m => m.set i j (val j)) m0).HasShape R C ∧
    ∀ i2 j2, j2 < C →
      (forRange 1 (C - 1) (fun j m => m.set i j (val j)) m0).get i2 j2 =
        if i2 = i ∧ (1 ≤ j2 ∧ j2 < C - 1) then val j2 else m0.get i2 j2 := by
  rcases Nat.lt_or_ge (C - 1) 1 with hlt | hge
  · rw [forRange_of_le _ _ _ _ (Nat.le_of_lt hlt)]
    refine ⟨h0, fun i2 j2 _ => ?_⟩
    rw [if_neg (by omega)]
  · have key := forRange_invariant
      (fun j (m : DoubleMatrix α) => m.HasShape R C ∧ ∀ i2 j2, j2 < C →
        m.get i2 j2 = if i2 = i ∧ (1 ≤ j2 ∧ j2 < j) then val j2 else m0.get i2 j2)
      1 (C - 1) (fun j m => m.set i j (val j)) m0 hge
      ⟨h0, fun i2 j2 _ => by rw [if_neg (by omega)]⟩
      (by
        rintro j m hj1 hj2 ⟨hs, hg⟩
        refine ⟨set_hasShape m R C i j _ hs, fun i2 j2 hj2C => ?_⟩
        rw [get_set m R C i j i2 j2 _ hs hi (by omega) hj2C, hg i2 j2 hj2C]
        by_cases hc : i2 = i ∧ j2 = j
        · obtain ⟨rfl, rfl⟩ := hc
          rw [if_pos ⟨rfl, rfl⟩, if_pos ⟨rfl, hj1, Nat.lt_succ_self _⟩]
        · rw [if_neg hc]
          by_cases hc2 : i2 = i ∧ (1 ≤ j2 ∧ j2 < j)
          · rw [if_pos hc2, if_pos ⟨hc2.1, hc2.2.1, by omega⟩]
          · rw [if_neg hc2, if_neg]
            rintro ⟨h1, h2, h3⟩
            rcases Nat.lt_or_ge j2 j with h4 | h4
            · exact hc2 ⟨h1, h2, h4⟩
            · exact hc ⟨h1, by omega⟩)
    exact key

/-- The two nested loops of a fill: every interior cell `(i, j)` receives
`val i j`, every other cell keeps its value, and the shape is kept. -/
theorem fill_spec [Zero α] (R C : Nat) (val : Nat → Nat → α) (m0 : DoubleMatrix α)
    (h0 : m0.HasShape R C) :
    (forRange 1 (R - 1) (fun i m =>
        forRange 1 (m.colsCount - 1) (fun j m => m.set i j (val i j)) m) m0).HasShape R C ∧
    ∀ i2 j2, j2 < C →
      (forRange 1 (R - 1) (fun i m =>
        forRange 1 (m.colsCount - 1) (fun j m => m.set i j (val i j)) m) m0).get i2 j2 =
        if (1 ≤ i2 ∧ i2 < R - 1) ∧ (1 ≤ j2 ∧ j2 < C - 1) then val i2 j2 else m0.get i2 j2 := by
  rcases Nat.lt_or_ge (R - 1) 1 with hlt | hge
  · rw [forRange_of_le _ _ _ _ (Nat.le_of_lt hlt)]
    refine ⟨h0, fun i2 j2 _ => ?_⟩
    rw [if_neg (by omega)]
  · have key := forRange_invariant
      (fun i (m : DoubleMatrix α) => m.HasShape R C ∧ ∀ i2 j2, j2 < C →
        m.get i2 j2 =
          if (1 ≤ i2 ∧ i2 < i) ∧ (1 ≤ j2 ∧ j2 < C - 1) then val i2 j2 else m0.get i2 j2)
      1 (R - 1) (fun i m =>
        forRange 1 (m.colsCount - 1) (fun j m => m.set i j (val i j)) m) m0 hge
      ⟨h0, fun i2 j2 _ => by rw [if_neg (by omega)]⟩
      (by
        rintro i m hi1 hi2 ⟨hs, hg⟩
        have hrow := fillRow_spec R C i (val i) m hs (by omega)
        beta_reduce
        rw [hs.2.1]
        refine ⟨hrow.1, fun i2 j2 hj2C => ?_⟩
        rw [hrow.2 i2 j2 hj2C, hg i2 j2 hj2C]
        by_cases hc : i2 = i
        · subst hc
          by_cases hj : 1 ≤ j2 ∧ j2 < C - 1
          · rw [if_pos ⟨rfl, hj⟩, if_pos ⟨⟨hi1, Nat.lt_succ_self _⟩, hj⟩]
          · rw [if_neg (fun h => hj h.2), if_neg (fun h => hj h.2), if_neg (fun h => hj h.2)]
        · rw [if_neg (fun h => hc h.1)]
          by_cases hc2 : (1 ≤ i2 ∧ i2 < i) ∧ (1 ≤ j2 ∧ j2 < C - 1)
          · rw [if_pos hc2, if_pos ⟨⟨hc2.1.1, by omega⟩, hc2.2⟩]
          · rw [if_neg hc2, if_neg]
            rintro ⟨⟨h1, h2⟩, h3⟩
            exact hc2 ⟨⟨h1, by omega⟩, h3⟩)
    exact key

end DoubleMatrix

/-! ## The operators, cell by cell -/

section OperatorLemmas

variable {α : Type} [Field α]

/-- Every cell of the matrix `CalculateLaplass` returns: the stencil value of
line 29 in an interior cell, zero elsewhere. -/
theorem CalculateLaplass_get (netModel : NetModel α) (f : DoubleMatrix α) (i j : Nat)
    (hj : j < netModel.yPointsCount) :
    (CalculateLaplass netModel f).get i j =
      if (1 ≤ i ∧ i < netModel.xPointsCount - 1) ∧ (1 ≤ j ∧ j < netModel.yPointsCount - 1) then
        ((f.get i j - f.get (i - 1) j) / netModel.xStep (i - 1) -
          (f.get (i + 1) j - f.get i j) / netModel.xStep i) / netModel.xAverageStep i +
        ((f.get i j - f.get i (j - 1)) / netModel.yStep (i - 1) -
          (f.get i (j + 1) - f.get i j) / netModel.yStep i) / netModel.yAverageStep j
      else 0 := by
  have h := (DoubleMatrix.fill_spec netModel.xPointsCount netModel.yPointsCount
    (fun i j =>
      ((f.get i j - f.get (i - 1) j) / netModel.xStep (i - 1) -
        (f.get (i + 1) j - f.get i j) / netModel.xStep i) / netModel.xAverageStep i +
      ((f.get i j - f.get i (j - 1)) / netModel.yStep (i - 1) -
        (f.get i (j + 1) - f.get i j) / netModel.yStep i) / netModel.yAverageStep j)
    (DoubleMatrix.create netModel.xPointsCount netModel.yPointsCount)
    (DoubleMatrix.create_hasShape _ _)).2 i j hj
  rw [DoubleMatrix.get_create] at h
  exact h

theorem CalculateLaplass_hasShape (netModel : NetModel α) (f : DoubleMatrix α) :
    (CalculateLaplass netModel f).HasShape netModel.xPointsCount netModel.yPointsCount :=
  (DoubleMatrix.fill_spec netModel.xPointsCount netModel.yPointsCount _
    (DoubleMatrix.create netModel.xPointsCount netModel.yPointsCount)
    (DoubleMatrix.create_hasShape _ _)).1

/-- An accumulating loop computes a finite sum. -/
theorem forRange_add (lo hi : Nat) (t : Nat → α) (init : α) :
    forRange lo hi (fun i s => s + t i) init = init + ∑ i ∈ Finset.Ico lo hi, t i := by
  rcases Nat.lt_or_ge hi lo with hlt | hge
  · rw [forRange_of_le _ _ _ _ (Nat.le_of_lt hlt), Finset.Ico_eq_empty (by omega)]
    simp
  · exact forRange_invariant (fun k s => s = init + ∑ i ∈ Finset.Ico lo k, t i) lo hi _ init hge
      (by simp)
      (by
        intro i s h1 _ hs
        rw [Finset.sum_Ico_succ_top h1, hs, add_assoc])

/-- `ScalarProduct` as a double sum over the interior cells of its first
argument. -/
theorem ScalarProduct_eq_sum (netModel : NetModel α) (a b : DoubleMatrix α) :
    ScalarProduct netModel a b =
      ∑ i ∈ Finset.Ico 1 (a.rowsCount - 1), ∑ j ∈ Finset.Ico 1 (a.colsCount - 1),
        netModel.xAverageStep i * netModel.yAverageStep j * a.get i j * b.get i j := by
  unfold ScalarProduct
  simp only [forRange_add, zero_add]

theorem Ico_eq_Icc_interior (n : Nat) : Finset.Ico 1 (n - 1) = Finset.Icc 1 (n - 2) := by
  ext k
  simp only [Finset.mem_Ico, Finset.mem_Icc]
  omega

end OperatorLemmas

/-! ## The claims about `ApproximateOperations` -/

section OperatorClaims

variable {α : Type} [Field α]

/-- C1: on a grid of `R >= 3` by `C >= 3` points and for a field `f` of that
shape, every interior cell `(i, j)` of `CalculateLaplass f` holds
`xPart / xAverageStep(i) + yPart / yAverageStep(j)`, where `xPart` takes its
differences along the rows with `xStep(i-1)` and `xStep(i)`, and `yPart` takes
its differences along the columns but looks the y-steps up at the row indices
`i-1` and `i`. -/
theorem CalculateLaplass_interior (netModel : NetModel α) (f : DoubleMatrix α) (R C : Nat)
    (hR : netModel.xPointsCount = R) (hC : netModel.yPointsCount = C)
    (hR3 : 3 ≤ R) (hC3 : 3 ≤ C) (hf : f.HasShape R C)
    (i j : Nat) (hi : 1 ≤ i ∧ i ≤ R - 2) (hj : 1 ≤ j ∧ j ≤ C - 2) :
    (CalculateLaplass netModel f).get i j =
      ((f.get i j - f.get (i - 1) j) / netModel.xStep (i - 1) -
        (f.get (i + 1) j - f.get i j) / netModel.xStep i) / netModel.xAverageStep i +
      ((f.get i j - f.get i (j - 1)) / netModel.yStep (i - 1) -
        (f.get i (j + 1) - f.get i j) / netModel.yStep i) / netModel.yAverageStep j := by
  subst hR hC
  rw [CalculateLaplass_get netModel f i j (by omega), if_pos ⟨⟨hi.1, by omega⟩, hj.1, by omega⟩]

/-- C3: for `a` and `b` of the same shape `R` by `C`, `ScalarProduct a b` is the
sum over the interior cells `1 <= i <= R-2`, `1 <= j <= C-2` of
`xAverageStep(i) * yAverageStep(j) * a(i,j) * b(i,j)`, so no cell of the first
or last row or column contributes, and it is `0` when `R < 3` or `C < 3`. -/
theorem ScalarProduct_interior_sum (netModel : NetModel α) (a b : DoubleMatrix α) (R C : Nat)
    (ha : a.HasShape R C) (hb : b.HasShape R C) :
    ScalarProduct netModel a b =
      ∑ i ∈ Finset.Icc 1 (R - 2), ∑ j ∈ Finset.Icc 1 (C - 2),
        netModel.xAverageStep i * netModel.yAverageStep j * a.get i j * b.get i j ∧
    ((R < 3 ∨ C < 3) → ScalarProduct netModel a b = 0) := by
  have _ := hb
  have hsum := ScalarProduct_eq_sum netModel a b
  rw [ha.1, ha.2.1, Ico_eq_Icc_interior, Ico_eq_Icc_interior] at hsum
  refine ⟨hsum, fun h => ?_⟩
  rw [hsum]
  rcases h with h | h
  · rw [Finset.Icc_eq_empty (by omega), Finset.sum_empty]
  · rw [Finset.Icc_eq_empty (show ¬ 1 ≤ C - 2 by omega)]
    simp

/-- C5: whatever the input field, the matrix `CalculateLaplass` returns has the
shape of the grid, and every cell of its first row, last row, first column
and last column holds zero. -/
theorem CalculateLaplass_boundary_zero (netModel : NetModel α) (f : DoubleMatrix α) :
    (CalculateLaplass netModel f).HasShape netModel.xPointsCount netModel.yPointsCount ∧
    ∀ i j, i < netModel.xPointsCount → j < netModel.yPointsCount →
      (i = 0 ∨ i = netModel.xPointsCount - 1 ∨ j = 0 ∨ j = netModel.yPointsCount - 1) →
      (CalculateLaplass netModel f).get i j = 0 := by
  refine ⟨CalculateLaplass_hasShape netModel f, fun i j _ hj hb => ?_⟩
  rw [CalculateLaplass_get netModel f i j hj, if_neg]
  omega

/-- C1 at the centre of a 3 by 3 field on a non-uniform grid. -/
theorem CalculateLaplass_interior_witness :
    field3.HasShape 3 3 ∧ (CalculateLaplass (steppedNet 3 3) field3).get 1 1 = 2 :=
  ⟨by decide,
   (CalculateLaplass_interior (steppedNet 3 3) field3 3 3 rfl rfl (by decide) (by decide)
      (by decide) 1 1 (by decide) (by decide)).trans
     (by norm_num [steppedNet, field3, DoubleMatrix.get])⟩

/-- C3 on two 3 by 3 fields (one interior cell) and on two 2 by 2 fields (no
interior cell). -/
theorem ScalarProduct_interior_sum_witness :
    ScalarProduct (steppedNet 3 3) field3 fieldNeg = -90 ∧
    ScalarProduct (steppedNet 2 2) (DoubleMatrix.mk 2 2 [1, 2, 3, 4])
      (DoubleMatrix.mk 2 2 [5, 6, 7, 8]) = 0 :=
  ⟨(ScalarProduct_interior_sum (steppedNet 3 3) field3 fieldNeg 3 3 (by decide) (by decide)).1.trans
     (by norm_num [steppedNet, field3, fieldNeg, DoubleMatrix.get]),
   (ScalarProduct_interior_sum (steppedNet 2 2) (DoubleMatrix.mk 2 2 [1, 2, 3, 4])
      (DoubleMatrix.mk 2 2 [5, 6, 7, 8]) 2 2 (by decide) (by decide)).2 (Or.inl (by decide))⟩

/-- C5 at a cell of the first row and at a cell of the last column. -/
theorem CalculateLaplass_boundary_zero_witness :
    (CalculateLaplass (steppedNet 3 3) field3).get 0 1 = 0 ∧
    (CalculateLaplass (steppedNet 3 3) field3).get 1 2 = 0 :=
  ⟨(CalculateLaplass_boundary_zero (steppedNet 3 3) field3).2 0 1 (by decide) (by decide)
     (Or.inl rfl),
   (CalculateLaplass_boundary_zero (steppedNet 3 3) field3).2 1 2 (by decide) (by decide)
     (Or.inr (Or.inr (Or.inr rfl)))⟩

end OperatorClaims

/-! ## `NormValue` and the max-norm -/

section Norms

variable {α : Type}

theorem foldl_largest_spec [LinearOrder α] (xs : List α) (x : α) :
    (xs.foldl (fun largest y => if largest < y then y else largest) x = x ∨
      xs.foldl (fun largest y => if largest < y then y else largest) x ∈ xs) ∧
    x ≤ xs.foldl (fun largest y => if largest < y then y else largest) x ∧
    ∀ y ∈ xs, y ≤ xs.foldl (fun largest y => if largest < y then y else largest) x := by
  induction xs generalizing x with
  | nil => simp
  | cons z zs ih =>
    simp only [List.foldl_cons, List.mem_cons]
    obtain ⟨h1, h2, h3⟩ := ih (if x < z then z else x)
    refine ⟨?_, ?_, ?_⟩
    · rcases h1 with h1 | h1
      · by_cases hxz : x < z
        · rw [if_pos hxz] at h1 ⊢
          exact Or.inr (Or.inl h1)
        · rw [if_neg hxz] at h1 ⊢
          exact Or.inl h1
      · exact Or.inr (Or.inr h1)
    · refine le_trans ?_ h2
      by_cases hxz : x < z
      · rw [if_pos hxz]; exact le_of_lt hxz
      · rw [if_neg hxz]
    · rintro y (rfl | hy)
      · refine le_trans ?_ h2
        by_cases hxz : x < y
        · rw [if_pos hxz]
        · rw [if_neg hxz]; exact not_lt.1 hxz
      · exact h3 y hy

/-- `max_element` returns an element of the range that no element exceeds. -/
theorem max_element_spec [LinearOrder α] (l : List α) (m : α) (h : max_element l = some m) :
    m ∈ l ∧ ∀ x ∈ l, x ≤ m := by
  cases l with
  | nil => simp [max_element] at h
  | cons x xs =>
    simp only [max_element, Option.some.injEq] at h
    subst h
    obtain ⟨h1, h2, h3⟩ := foldl_largest_spec xs x
    refine ⟨?_, ?_⟩
    · rcases h1 with h1 | h1
      · rw [h1]; exact List.mem_cons_self _ _
      · exact List.mem_cons_of_mem _ h1
    · intro y hy
      rcases List.mem_cons.1 hy with rfl | hy
      · exact h2
      · exact h3 y hy

/-- What `NormValue` computes: the absolute value of the largest cell. -/
theorem NormValue_spec [LinearOrderedField α] (a : DoubleMatrix α) (v : α)
    (h : NormValue a = some v) :
    ∃ m ∈ a.matrix.take (a.rowsCount * a.colsCount),
      (∀ x ∈ a.matrix.take (a.rowsCount * a.colsCount), x ≤ m) ∧ v = |m| := by
  unfold NormValue at h
  rcases hm : max_element (a.matrix.take (a.rowsCount * a.colsCount)) with _ | m
  · rw [hm] at h; simp at h
  · rw [hm] at h
    simp only [Option.map_some', Option.some.injEq] at h
    obtain ⟨h1, h2⟩ := max_element_spec _ m hm
    exact ⟨m, h1, h2, h.symm⟩

/-- The max-norm of the spec is the largest absolute value of a cell. -/
theorem maxNorm_spec [LinearOrderedField α] (a : DoubleMatrix α) (v : α)
    (h : maxNorm a = some v) :
    (∃ x ∈ a.matrix.take (a.rowsCount * a.colsCount), v = |x|) ∧
    ∀ x ∈ a.matrix.take (a.rowsCount * a.colsCount), |x| ≤ v := by
  obtain ⟨h1, h2⟩ := max_element_spec _ v h
  refine ⟨?_, fun x hx => h2 _ (List.mem_map_of_mem _ hx)⟩
  obtain ⟨x, hx, rfl⟩ := List.mem_map.1 h1
  exact ⟨x, hx, rfl⟩

/-- C2: `NormValue` is not the max-norm.  On a 3 by 3 matrix whose
entry of largest absolute value is `-5` and whose largest entry is `3`,
`NormValue` returns `|3| = 3` while the largest `|a(i,j)|` is `5`. -/
theorem NormValue_misses_negative_entry :
    fieldNeg.HasShape 3 3 ∧ NormValue fieldNeg = some 3 ∧ maxNorm fieldNeg = some 5 := by
  refine ⟨by decide, ?_, ?_⟩
  · norm_num [NormValue, fieldNeg, max_element]
  · norm_num [maxNorm, fieldNeg, max_element]

end Norms

/-! ## Grid-model lookups -/

section LookupClaims

theorem forRange_append {β : Type} (lo hi : Nat) (g : Nat → List β) (init : List β) :
    forRange lo hi (fun i log => log ++ g i) init =
      init ++ (List.range' lo (hi - lo)).flatMap g := by
  unfold forRange
  generalize List.range' lo (hi - lo) = l
  induction l generalizing init with
  | nil => simp
  | cons x xs ih => simp [List.foldl_cons, ih, List.flatMap_cons, List.append_assoc]

theorem mem_CalculateLaplassLookups (R C : Nat) (l : Lookup) :
    l ∈ CalculateLaplassLookups R C ↔
      ∃ i j, (1 ≤ i ∧ i < R - 1) ∧ (1 ≤ j ∧ j < C - 1) ∧
        l ∈ [Lookup.xStep (i - 1), Lookup.xStep i, Lookup.yStep (i - 1), Lookup.yStep i,
             Lookup.xAverageStep i, Lookup.yAverageStep j] := by
  unfold CalculateLaplassLookups
  simp only [forRange_append, List.nil_append, List.mem_flatMap, List.mem_range'_1]
  constructor
  · rintro ⟨i, hi, j, hj, h⟩
    exact ⟨i, j, ⟨hi.1, by omega⟩, ⟨hj.1, by omega⟩, h⟩
  · rintro ⟨i, j, hi, hj, h⟩
    exact ⟨i, ⟨hi.1, by omega⟩, j, ⟨hj.1, by omega⟩, h⟩

theorem mem_ScalarProductLookups (R C : Nat) (l : Lookup) :
    l ∈ ScalarProductLookups R C ↔
      ∃ i j, (1 ≤ i ∧ i < R - 1) ∧ (1 ≤ j ∧ j < C - 1) ∧
        l ∈ [Lookup.xAverageStep i, Lookup.yAverageStep j] := by
  unfold ScalarProductLookups
  simp only [forRange_append, List.nil_append, List.mem_flatMap, List.mem_range'_1]
  constructor
  · rintro ⟨i, hi, j, hj, h⟩
    exact ⟨i, j, ⟨hi.1, by omega⟩, ⟨hj.1, by omega⟩, h⟩
  · rintro ⟨i, j, hi, hj, h⟩
    exact ⟨i, ⟨hi.1, by omega⟩, j, ⟨hj.1, by omega⟩, h⟩

/-- C9 as stated fails: on a 3 by 3 grid `CalculateLaplass` calls `xStep(0)`,
the step of the first point of the x-axis, and on a 4 by 3 grid it calls
`yStep(2)`, the step of the last point of the y-axis; neither index is
interior. -/
theorem CalculateLaplassLookups_not_interior :
    (Lookup.xStep 0 ∈ CalculateLaplassLookups 3 3 ∧ ¬ (Lookup.xStep 0).Interior 3 3) ∧
    (Lookup.yStep 2 ∈ CalculateLaplassLookups 4 3 ∧ ¬ (Lookup.yStep 2).Interior 4 3) := by
  decide

/-- C9, amended: every `xAverageStep` and `yAverageStep` lookup of
`CalculateLaplass` and of `ScalarProduct` is made at an interior index of the
axis it reads, and every `xStep` lookup is made at an index `k` with
`0 <= k <= R - 2`, the index of an x-point that has a next point, index `0`
included.  Nothing is said of the `yStep` lookups. -/
theorem lookups_inRange (R C k : Nat) :
    (Lookup.xStep k ∈ CalculateLaplassLookups R C ∨ Lookup.xStep k ∈ ScalarProductLookups R C →
      3 ≤ R ∧ k ≤ R - 2) ∧
    (Lookup.xAverageStep k ∈ CalculateLaplassLookups R C ∨
        Lookup.xAverageStep k ∈ ScalarProductLookups R C →
      1 ≤ k ∧ k ≤ R - 2) ∧
    (Lookup.yAverageStep k ∈ CalculateLaplassLookups R C ∨
        Lookup.yAverageStep k ∈ ScalarProductLookups R C →
      1 ≤ k ∧ k ≤ C - 2) := by
  refine ⟨?_, ?_, ?_⟩ <;> rintro (h | h)
  all_goals
    first
    | (obtain ⟨i, j, hi, hj, hl⟩ := (mem_CalculateLaplassLookups R C _).1 h
       simp only [List.mem_cons, List.mem_singleton, List.not_mem_nil, or_false,
         Lookup.xStep.injEq, Lookup.xAverageStep.injEq, Lookup.yAverageStep.injEq,
         reduceCtorEq, false_or, or_false] at hl
       omega)
    | (obtain ⟨i, j, hi, hj, hl⟩ := (mem_ScalarProductLookups R C _).1 h
       simp only [List.mem_cons, List.mem_singleton, List.not_mem_nil, or_false,
         Lookup.xStep.injEq, Lookup.xAverageStep.injEq, Lookup.yAverageStep.injEq,
         reduceCtorEq, false_or, or_false] at hl <;> omega)

/-- The amended C9 on a 3 by 3 grid: the lookup `xStep(0)` of `CalculateLaplass`,
its lookup `xAverageStep(1)`, and the lookup `yAverageStep(1)` of
`ScalarProduct`. -/
theorem lookups_inRange_witness :
    (Lookup.xStep 0 ∈ CalculateLaplassLookups 3 3 ∧ 3 ≤ 3 ∧ 0 ≤ 3 - 2) ∧
    (Lookup.xAverageStep 1 ∈ CalculateLaplassLookups 3 3 ∧ 1 ≤ 1 ∧ 1 ≤ 3 - 2) ∧
    (Lookup.yAverageStep 1 ∈ ScalarProductLookups 3 3 ∧ 1 ≤ 1 ∧ 1 ≤ 3 - 2) :=
  ⟨⟨by decide, (lookups_inRange 3 3 0).1 (Or.inl (by decide))⟩,
   ⟨by decide, (lookups_inRange 3 3 1).2.1 (Or.inl (by decide))⟩,
   ⟨by decide, (lookups_inRange 3 3 1).2.2 (Or.inr (by decide))⟩⟩

/-- The lookups of `CalculateLaplassLookups` are all the operator reads of the
grid model: two grid models that answer them alike give the same cells. -/
theorem CalculateLaplass_get_congr {α : Type} [Field α] (n1 n2 : NetModel α)
    (f : DoubleMatrix α) (hx : n1.xPointsCount = n2.xPointsCount)
    (hy : n1.yPointsCount = n2.yPointsCount)
    (h : ∀ l ∈ CalculateLaplassLookups n1.xPointsCount n1.yPointsCount, n1.AgreesAt n2 l)
    (i j : Nat) (hj : j < n1.yPointsCount) :
    (CalculateLaplass n1 f).get i j = (CalculateLaplass n2 f).get i j := by
  rw [CalculateLaplass_get n1 f i j hj, CalculateLaplass_get n2 f i j (hy ▸ hj), ← hx, ← hy]
  by_cases hc : (1 ≤ i ∧ i < n1.xPointsCount - 1) ∧ (1 ≤ j ∧ j < n1.yPointsCount - 1)
  · rw [if_pos hc, if_pos hc]
    have hm : ∀ l ∈ [Lookup.xStep (i - 1), Lookup.xStep i, Lookup.yStep (i - 1),
        Lookup.yStep i, Lookup.xAverageStep i, Lookup.yAverageStep j], n1.AgreesAt n2 l :=
      fun l hl => h l ((mem_CalculateLaplassLookups _ _ l).2 ⟨i, j, hc.1, hc.2, hl⟩)
    have e1 : n1.xStep (i - 1) = n2.xStep (i - 1) := hm (Lookup.xStep (i - 1)) (by simp)
    have e2 : n1.xStep i = n2.xStep i := hm (Lookup.xStep i) (by simp)
    have e3 : n1.yStep (i - 1) = n2.yStep (i - 1) := hm (Lookup.yStep (i - 1)) (by simp)
    have e4 : n1.yStep i = n2.yStep i := hm (Lookup.yStep i) (by simp)
    have e5 : n1.xAverageStep i = n2.xAverageStep i := hm (Lookup.xAverageStep i) (by simp)
    have e6 : n1.yAverageStep j = n2.yAverageStep j := hm (Lookup.yAverageStep j) (by simp)
    rw [e1, e2, e3, e4, e5, e6]
  · rw [if_neg hc, if_neg hc]

/-- The lookups of `ScalarProductLookups` are all `ScalarProduct` reads of the
grid model. -/
theorem ScalarProduct_congr {α : Type} [Field α] (n1 n2 : NetModel α) (a b : DoubleMatrix α)
    (h : ∀ l ∈ ScalarProductLookups a.rowsCount a.colsCount, n1.AgreesAt n2 l) :
    ScalarProduct n1 a b = ScalarProduct n2 a b := by
  rw [ScalarProduct_eq_sum, ScalarProduct_eq_sum]
  refine Finset.sum_congr rfl (fun i hi => Finset.sum_congr rfl (fun j hj => ?_))
  have hm : ∀ l ∈ [Lookup.xAverageStep i, Lookup.yAverageStep j], n1.AgreesAt n2 l :=
    fun l hl => h l ((mem_ScalarProductLookups _ _ l).2
      ⟨i, j, Finset.mem_Ico.1 hi, Finset.mem_Ico.1 hj, hl⟩)
  have e1 : n1.xAverageStep i = n2.xAverageStep i := hm (Lookup.xAverageStep i) (by simp)
  have e2 : n1.yAverageStep j = n2.yAverageStep j := hm (Lookup.yAverageStep j) (by simp)
  rw [e1, e2]

end LookupClaims

/-! ## The checks of `main` -/

section DriverClaims

/-- C7: with fewer than three positional arguments (`argc < 4`) `main` writes
the error to `std::cerr` and calls `exit(1)`, and that is all it does: no
`MPI_Init`, no grid model, no solver or communication step. -/
theorem main_too_few_arguments (inv : Invocation) (h : inv.argc < 4) :
    main inv = [Event.stderr "Not enough input arguments\n", Event.exit 1] := by
  unfold main
  rw [if_pos h]

/-- C7 at an invocation with two positional arguments. -/
theorem main_too_few_arguments_witness :
    main ⟨3, 0, 1, some 10, "", [Event.stage "solver"]⟩ =
      [Event.stderr "Not enough input arguments\n", Event.exit 1] :=
  main_too_few_arguments ⟨3, 0, 1, some 10, "", [Event.stage "solver"]⟩ (by decide)

/-- C8 as stated fails: with three positional arguments, resolution `0` and
one process, `main` constructs the grid model `NetModel(..., 0, 0)` and goes
on to the later stages; it neither writes to `std::cerr` nor calls `exit`
before that. -/
theorem main_accepts_zero_resolution :
    main ⟨4, 0, 1, some 0, "", [Event.stage "solver"]⟩ =
      [Event.MPI_Init, Event.MPI_Comm_rank, Event.MPI_Comm_size,
       Event.stdout "rank = 0\n", Event.NetModel 0 0, Event.stage "solver"] := by
  decide

/-- C8, amended: with at least three positional arguments and a resolution
argument that parses to an integer, `main` tests the process count only.  If
the process count is `<= 0` it bootstraps MPI, writes the error to `std::cerr`
and calls `exit(1)`, constructing no grid model and running no later stage.
If the process count is positive it constructs the grid model, whatever the
sign of the resolution. -/
theorem main_checks_process_count (inv : Invocation) (pointsCount : Int)
    (hargc : 4 ≤ inv.argc) (hparse : inv.pointsCount = some pointsCount) :
    (inv.processorsCount ≤ 0 →
      main inv =
        [Event.MPI_Init, Event.MPI_Comm_rank, Event.MPI_Comm_size,
         Event.stderr "Incorrect number of processors\n", Event.exit 1]) ∧
    (0 < inv.processorsCount →
      main inv =
        [Event.MPI_Init, Event.MPI_Comm_rank, Event.MPI_Comm_size,
         Event.stdout ("rank = " ++ toString inv.rank ++ "\n"),
         Event.NetModel pointsCount pointsCount] ++ inv.rest) := by
  unfold main
  rw [if_neg (by omega), hparse]
  constructor
  · intro hcount
    simp only [if_pos hcount]
    rfl
  · intro hcount
    simp only [if_neg (not_le.2 hcount)]
    rfl

/-- The amended C8 at an invocation with resolution `10` and process count `0`,
and at one with resolution `-3` and process count `2`. -/
theorem main_checks_process_count_witness :
    main ⟨4, 0, 0, some 10, "", [Event.stage "solver"]⟩ =
      [Event.MPI_Init, Event.MPI_Comm_rank, Event.MPI_Comm_size,
       Event.stderr "Incorrect number of processors\n", Event.exit 1] ∧
    main ⟨4, 1, 2, some (-3), "", [Event.stage "solver"]⟩ =
      [Event.MPI_Init, Event.MPI_Comm_rank, Event.MPI_Comm_size,
       Event.stdout "rank = 1\n", Event.NetModel (-3) (-3), Event.stage "solver"] :=
  ⟨(main_checks_process_count ⟨4, 0, 0, some 10, "", [Event.stage "solver"]⟩ 10
      (by decide) rfl).1 (by decide),
   (main_checks_process_count ⟨4, 1, 2, some (-3), "", [Event.stage "solver"]⟩ (-3)
      (by decide) rfl).2 (by decide)⟩

end DriverClaims

/-! ## The Laplacian of a quadratic on a uniform grid -/

section Quadratic

variable {α : Type} [LinearOrderedField α]

end Quadratic

/-! ## Symmetry of the operator -/

section SelfAdjoint

variable {α : Type} [LinearOrderedField α]

end SelfAdjoint

/-! ## The text `writeValues` emits -/

section WriteValues

theorem intercalate_go_concat (sep : String) (l : List String) (acc x : String) :
    String.intercalate.go acc sep (l ++ [x]) = String.intercalate.go acc sep l ++ sep ++ x := by
  induction l generalizing acc with
  | nil => simp [String.intercalate.go]
  | cons a l ih => simp [String.intercalate.go, ih]

theorem intercalate_concat (sep : String) (l : List String) (x : String) :
    String.intercalate sep (l ++ [x]) =
      if l = [] then x else String.intercalate sep l ++ sep ++ x := by
  cases l with
  | nil => simp [String.intercalate, String.intercalate.go]
  | cons a l => simp [String.intercalate, intercalate_go_concat]

/-- A loop that appends the items `t 0, ..., t (n-1)` and a separator after
every item but the last appends the items joined by the separator. -/
theorem forRange_separated (n : Nat) (t : Nat → String) (sep out0 : String) :
    forRange 0 n (fun j out => if j ≠ n - 1 then out ++ t j ++ sep else out ++ t j) out0 =
      out0 ++ String.intercalate sep ((List.range n).map t) := by
  have key := forRange_invariant
    (fun k out => out = out0 ++ String.intercalate sep ((List.range k).map t) ++
      (if 0 < k ∧ k < n then sep else ""))
    0 n (fun j out => if j ≠ n - 1 then out ++ t j ++ sep else out ++ t j) out0 (Nat.zero_le n)
    (by simp [String.intercalate])
    (by
      intro k out _ hk hout
      beta_reduce
      rw [hout, List.range_succ, List.map_append, List.map_singleton, intercalate_concat]
      rcases Nat.eq_zero_or_pos k with h0 | hpos
      · subst h0
        by_cases h1 : 0 ≠ n - 1
        · have h2 : 0 < 0 + 1 ∧ 0 + 1 < n := ⟨by omega, by omega⟩
          simp [h1, h2, String.intercalate, String.append_assoc]
        · have h2 : ¬ (1 < n) := by omega
          simp [h1, h2, String.intercalate, String.append_assoc]
      · have hne : ¬ (List.map t (List.range k) = []) := by
          simp only [List.map_eq_nil_iff, List.range_eq_nil]
          omega
        have hk2 : 0 < k ∧ k < n := ⟨hpos, hk⟩
        rw [if_neg hne, if_pos hk2]
        by_cases h1 : k ≠ n - 1
        · have h2 : 0 < k + 1 ∧ k + 1 < n := ⟨by omega, by omega⟩
          rw [if_pos h1, if_pos h2]
          simp only [String.append_assoc]
        · have h2 : ¬ (0 < k + 1 ∧ k + 1 < n) := by omega
          rw [if_neg h1, if_neg h2]
          simp only [String.append_assoc, String.append_empty])
  beta_reduce at key
  rw [key, if_neg (by omega), String.append_empty]

/-- Occurrences of a character in items joined by a separator, when every item
holds it `m` times. -/
theorem count_intercalate_const (ch : Char) (sep : String) (t : Nat → String) (n m : Nat)
    (h : ∀ j, j < n → (t j).data.count ch = m) :
    (String.intercalate sep ((List.range n).map t)).data.count ch =
      n * m + (n - 1) * sep.data.count ch := by
  induction n with
  | zero => simp [String.intercalate]
  | succ k ih =>
    rw [List.range_succ, List.map_append, List.map_singleton, intercalate_concat]
    rcases Nat.eq_zero_or_pos k with h0 | hpos
    · subst h0
      simp [h 0 (by omega)]
    · have hne : ¬ (List.map t (List.range k) = []) := by
        simp only [List.map_eq_nil_iff, List.range_eq_nil]
        omega
      rw [if_neg hne, String.data_append, String.data_append, List.count_append,
        List.count_append, ih (fun j hj => h j (by omega)), h k (by omega)]
      obtain ⟨k2, rfl⟩ : ∃ k2, k = k2 + 1 := ⟨k - 1, by omega⟩
      simp only [Nat.add_sub_cancel]
      ring

variable {α : Type} [Zero α]

/-- The text `writeValues` writes when the file opens: the rows joined by a
newline, each row its formatted values joined by a comma and a space. -/
theorem writeValues_eq (filename : String) (format : α → String) (values : DoubleMatrix α) :
    writeValues filename true format values =
      Except.ok (String.intercalate "\n" ((List.range values.rowsCount).map (fun i =>
        String.intercalate ", " ((List.range values.colsCount).map (fun j =>
          format (values.get i j)))))) := by
  unfold writeValues
  simp only [Bool.not_true, Bool.false_eq_true, if_false, forRange_separated, String.empty_append]

/-- C6: the text `writeValues` emits is the rows in ascending order joined by
a newline, each row being its formatted values in ascending column order
joined by the separator (a comma and a space); no separator follows the last
value of a row, no newline the last row.  When no formatted value holds a
newline or a comma, the text holds exactly `r - 1` newlines and `r * (c - 1)`
commas. -/
theorem writeValues_text (filename : String) (format : α → String) (values : DoubleMatrix α)
    (r c : Nat) (hr : values.rowsCount = r) (hc : values.colsCount = c) :
    writeValues filename true format values =
      Except.ok (String.intercalate "\n" ((List.range r).map (fun i =>
        String.intercalate ", " ((List.range c).map (fun j => format (values.get i j)))))) ∧
    ((∀ i, i < r → ∀ j, j < c →
        (format (values.get i j)).data.count '\n' = 0 ∧
        (format (values.get i j)).data.count ',' = 0) →
      ∀ text, writeValues filename true format values = Except.ok text →
        text.data.count '\n' = r - 1 ∧ text.data.count ',' = r * (c - 1)) := by
  subst hr hc
  refine ⟨writeValues_eq filename format values, fun hfmt text htext => ?_⟩
  rw [writeValues_eq] at htext
  injection htext with htext
  subst htext
  constructor
  · rw [count_intercalate_const (Char.ofNat 10) "\n" _ values.rowsCount 0]
    · have e : ("\n" : String).data.count (Char.ofNat 10) = 1 := by decide
      rw [e]
      omega
    · intro i hi
      rw [count_intercalate_const (Char.ofNat 10) ", " _ values.colsCount 0
        (fun j hj => (hfmt i hi j hj).1)]
      have e : (", " : String).data.count (Char.ofNat 10) = 0 := by decide
      rw [e]
      omega
  · rw [count_intercalate_const ',' "\n" _ values.rowsCount (values.colsCount - 1)]
    · have e : ("\n" : String).data.count ',' = 0 := by decide
      rw [e]
      omega
    · intro i hi
      rw [count_intercalate_const ',' ", " _ values.colsCount 0
        (fun j hj => (hfmt i hi j hj).2)]
      have e : (", " : String).data.count ',' = 1 := by decide
      rw [e]
      omega

/-- C6 on a 3 by 3 field, each value written as its numerator. -/
theorem writeValues_text_witness :
    writeValues "out.txt" true (fun q : ℚ => toString q.num) field3 =
      Except.ok "1, 2, 3\n4, 6, 8\n7, 8, 10" ∧
    ("1, 2, 3\n4, 6, 8\n7, 8, 10" : String).data.count '\n' = 3 - 1 ∧
    ("1, 2, 3\n4, 6, 8\n7, 8, 10" : String).data.count ',' = 3 * (3 - 1) :=
  have h := writeValues_text "out.txt" (fun q : ℚ => toString q.num) field3 3 3 rfl rfl
  have e : writeValues "out.txt" true (fun q : ℚ => toString q.num) field3 =
      Except.ok "1, 2, 3\n4, 6, 8\n7, 8, 10" := h.1.trans (congrArg Except.ok (by decide))
  ⟨e, h.2 (by decide) _ e⟩

end WriteValues

end ParallelOdu
